import Mathlib

/-!
Verification of the terminal chat front-end in `src/chat/chat.py`.

The development shallowly embeds the stateful core of the program:
the fence-mode classifier, the streaming renderer (`stream_output`),
the input capturer (`get_input`), and the chat session loop
(`async_chat`, embedded as `chatLoop`).  Text is modelled as `List Char`
so that every definition is executable and every concrete run can be
checked by `decide`.
-/

namespace ChatSpec

/-- Text is modelled as a list of characters. -/
abbrev Chars := List Char

/-- Embedding of Python's `str.startswith`: `startsWithChars line pat`
is `true` iff `pat` is an initial segment of `line`. -/
def startsWithChars : Chars → Chars → Bool
  | _, [] => true
  | [], _ :: _ => false
  | c :: cs, p :: ps => if c = p then startsWithChars cs ps else false

/-- The three render modes of the streaming renderer
(`mode` in `stream_output`: the strings `'bot'`, `'thinking'`, `'code'`). -/
inductive Mode
  | bot
  | thinking
  | code
deriving DecidableEq, Repr

/-- The thinking fence opener, the Python literal `"```thinking"`. -/
def thinkTok : Chars := "```thinking".data

/-- The bare fence marker, the Python literal `"```"`. -/
def fenceTok : Chars := "```".data

/-- One step of the fence tracker, embedding the mode update of
`stream_output` (chat.py lines 213-219):

    if line.startswith("```thinking"): mode = "thinking"
    elif line.startswith("```"):
        if mode == "bot": mode = "code"
        else: mode = "bot"
-/
def classify (line : Chars) (mode : Mode) : Mode :=
  if startsWithChars line thinkTok then Mode.thinking
  else if startsWithChars line fenceTok then
    if mode = Mode.bot then Mode.code else Mode.bot
  else mode

/-- Role tag of a conversation message. -/
inductive Role
  | human
  | ai
  | tool
deriving DecidableEq, Repr

/-- One conversation message (a langchain message: role plus content). -/
structure Message where
  role : Role
  content : Chars
deriving DecidableEq, Repr

/-- The conversation history: the `messages` list of the graph state. -/
abbrev History := List Message

/-- One chunk of a `"messages"` stream event, as consumed by the inner
`for chunk in data` loop of `stream_output` (chat.py lines 205-228):
an `AIMessageChunk` (whose content is a list of parts, each contributing
its `"text"` value, possibly empty), a `ToolMessage`, a metadata dict
(silently skipped by the `isinstance` chain), or any other non-dict
value (printed diagnostically). -/
inductive Chunk
  | ai (texts : List Chars)
  | toolMsg (m : Message)
  | metaDict
  | other (descr : Chars)
deriving DecidableEq, Repr

/-- One event of `graph.astream(state, stream_mode=["values", "messages"])`:
either a `'values'` event carrying a full state snapshot, or a
`'messages'` event carrying a list of chunks. -/
inductive Fragment
  | values (state : History)
  | messages (chunks : List Chunk)
deriving DecidableEq, Repr

/-- The spec's TextDelta fragment: a `'messages'` event holding a single
AI chunk with a single text run. -/
def Fragment.textDelta (t : Chars) : Fragment :=
  Fragment.messages [Chunk.ai [t]]

/-- The spec's ToolEvent fragment: a `'messages'` event holding a single
`ToolMessage` chunk. -/
def Fragment.toolEvent (m : Message) : Fragment :=
  Fragment.messages [Chunk.toolMsg m]

/-- One unit of terminal output produced while rendering: a styled line
(`print_formatted(f"<mode>line</mode>")`), a pretty-printed tool block, or
a diagnostic print of an unknown chunk. -/
inductive Out
  | styled (mode : Mode) (line : Chars)
  | toolBlock (m : Message)
  | diag (descr : Chars)
deriving DecidableEq, Repr

/-- The renderer state of `stream_output`: the `stream_buffer` string,
the current `mode`, and the working `state` (history snapshot). -/
structure RenderState where
  buffer : Chars
  mode : Mode
  state : History
deriving DecidableEq, Repr

/-- The renderer state at the start of `stream_output`
(`stream_buffer = ''`, `mode = 'bot'`). -/
def initRender (h : History) : RenderState :=
  RenderState.mk [] Mode.bot h

/-- Prepend `x` to the first element of a part list (the part list being
the decomposition of a buffer at its newlines). -/
def consHead (x : Chars) : List Chars → List Chars
  | [] => [x]
  | y :: ys => (x ++ y) :: ys

/-- Decomposition of a buffer at every newline, the semantics of Python's
`s.split("\n")`: `"a\nb"` gives `["a", "b"]`, `"a\n"` gives `["a", ""]`,
and `""` gives `[""]`. -/
def splitLinesChars : Chars → List Chars
  | [] => [[]]
  | c :: cs =>
      if c = '\n' then [] :: splitLinesChars cs
      else consHead [c] (splitLinesChars cs)

/-- The line-draining loop of `stream_output` (chat.py lines 211-221),
phrased on the newline decomposition of the buffer: while a newline
remains (the part list has at least two elements), split off the first
line, update the mode with `classify`, and print the line styled in the
resulting mode; the final part is the text left in the buffer. -/
def drainParts (m : Mode) : List Chars → List Out × Mode × Chars
  | [] => ([], m, [])
  | [rest] => ([], m, rest)
  | line :: next :: parts =>
      let m' := classify line m
      let r := drainParts m' (next :: parts)
      (Out.styled m' line :: r.1, r.2)

/-- Drain all complete lines of `buffer`, starting in mode `m`:

    while '\n' in stream_buffer:
        line, stream_buffer = stream_buffer.split("\n", maxsplit=1)
        ... classify ...
        print_formatted(f"<mode>line</mode>")
-/
def drainBuffer (buffer : Chars) (m : Mode) : List Out × Mode × Chars :=
  drainParts m (splitLinesChars buffer)

/-- Character-at-a-time reformulation of the draining loop, used as the
proof vehicle for composition across fragments: `cur` is the pending
(newline-free) partial line. -/
def feed (m : Mode) (cur : Chars) : Chars → List Out × Mode × Chars
  | [] => ([], m, cur)
  | c :: cs =>
      if c = '\n' then
        let m' := classify cur m
        let r := feed m' [] cs
        (Out.styled m' cur :: r.1, r.2)
      else feed m (cur ++ [c]) cs

/-- Processing of one chunk of a `'messages'` event (chat.py lines
206-228): an AI chunk appends all its text runs to the buffer and drains
complete lines; a `ToolMessage` is pretty-printed without touching the
buffer or mode; a metadata dict is skipped; any other value is printed
diagnostically. -/
def stepChunk (rs : RenderState) : Chunk → RenderState × List Out
  | Chunk.ai texts =>
      let d := drainBuffer (rs.buffer ++ texts.flatten) rs.mode
      (RenderState.mk d.2.2 d.2.1 rs.state, d.1)
  | Chunk.toolMsg m => (rs, [Out.toolBlock m])
  | Chunk.metaDict => (rs, [])
  | Chunk.other descr => (rs, [Out.diag descr])

/-- The inner `for chunk in data` loop of `stream_output`. -/
def runChunks (rs : RenderState) : List Chunk → RenderState × List Out
  | [] => (rs, [])
  | c :: cs =>
      let s := stepChunk rs c
      let r := runChunks s.1 cs
      (r.1, s.2 ++ r.2)

/-- Processing of one stream event (chat.py lines 201-228): a `'values'`
event replaces the working state wholesale and prints nothing; a
`'messages'` event runs the chunk loop. -/
def stepFragment (rs : RenderState) : Fragment → RenderState × List Out
  | Fragment.values h => (RenderState.mk rs.buffer rs.mode h, [])
  | Fragment.messages cs => runChunks rs cs

/-- The outer `async for t, data in graph.astream(...)` loop. -/
def runFragments (rs : RenderState) : List Fragment → RenderState × List Out
  | [] => (rs, [])
  | f :: fs =>
      let s := stepFragment rs f
      let r := runFragments s.1 fs
      (r.1, s.2 ++ r.2)

/-- Embedding of `stream_output` (chat.py lines 197-230): run all stream
events from a fresh render state, then unconditionally flush the
remaining buffer styled as `bot` (line 229:
`print_formatted(f"<bot>{stream_buffer}</bot>", STYLE, '')`) and return
the working state (line 230). -/
def stream_output (frags : List Fragment) (state : History) : History × List Out :=
  let r := runFragments (initRender state) frags
  (r.1.state, r.2 ++ [Out.styled Mode.bot r.1.buffer])

/-- The last state snapshot carried by a fragment stream, if any
(the spec's "last seen StateSnapshot"). -/
def lastSnapshotOf : List Fragment → Option History
  | [] => none
  | Fragment.values h :: fs => some ((lastSnapshotOf fs).getD h)
  | Fragment.messages _ :: fs => lastSnapshotOf fs

/-- The text contributed to the stream buffer by one chunk. -/
def chunkText : Chunk → Chars
  | Chunk.ai texts => texts.flatten
  | Chunk.toolMsg _ => []
  | Chunk.metaDict => []
  | Chunk.other _ => []

/-- The text contributed to the stream buffer by a list of chunks. -/
def chunksText (cs : List Chunk) : Chars :=
  (cs.map chunkText).flatten

/-- The text contributed to the stream buffer by one fragment. -/
def fragText : Fragment → Chars
  | Fragment.values _ => []
  | Fragment.messages cs => chunksText cs

/-- The concatenation of all streamed text runs of a fragment list. -/
def streamText (fs : List Fragment) : Chars :=
  (fs.map fragText).flatten

/-- Embedding of Python's `str.strip()`: remove whitespace from both
ends (ASCII whitespace; the unicode cases of `str.strip` are not
load-bearing here). -/
def trimChars (s : Chars) : Chars :=
  ((s.dropWhile Char.isWhitespace).reverse.dropWhile Char.isWhitespace).reverse

/-- Embedding of Python's `str.lower()` (ASCII case folding). -/
def lowerChars (s : Chars) : Chars :=
  s.map Char.toLower

/-- The multi-line sentinel, the Python literal `"`"` (a backquote). -/
def backTok : Chars := "`".data

/-- The inner `while True` reading loop of `get_input` (chat.py lines
146-153): read a line, strip it, stop (without appending) on a line
whose stripped form is the sentinel, otherwise append the stripped
line; `none` models exhausted terminal input. -/
def collectMulti : List Chars → List Chars → Option (List Chars × List Chars)
  | [], _ => none
  | raw :: restInput, acc =>
      let line := trimChars raw
      if line = backTok then some (acc, restInput)
      else collectMulti restInput (acc ++ [line])

/-- Python's `"\n".join(lines)`. -/
def joinNL (lines : List Chars) : Chars :=
  List.intercalate ['\n'] lines

/-- Embedding of `get_input` (chat.py lines 135-155) over a queue of
terminal lines: strip the first line; if it starts with the backquote
sentinel, collect lines in multi-line mode (the first collected line is
the sentinel-stripped remainder of the stripped first line) and join
them with newlines; otherwise return the stripped line. The result
pairs the captured input with the unconsumed queue; `none` models end
of terminal input. -/
def get_input : List Chars → Option (Chars × List Chars)
  | [] => none
  | raw :: rest =>
      let first_line := trimChars raw
      if startsWithChars first_line backTok then
        match collectMulti rest [first_line.drop 1] with
        | none => none
        | some (ls, rest') => some (joinNL ls, rest')
      else some (first_line, rest)

/-- Result of one engine invocation (`graph.astream` and the consumption
of its stream): a fragment stream, or an exception raised while
submitting or consuming it. -/
inductive EngineResult
  | ok (frags : List Fragment)
  | err (msg : Chars)
deriving Repr

/-- User-visible effects of the turns of `async_chat`. -/
inductive SessionEvent
  | printedHistory (h : History)
  | rendered (outs : List Out)
  | errorNotice (msg : Chars)
deriving DecidableEq, Repr

/-- How a run of the embedded chat loop ended. -/
inductive EndKind
  | exitZero
  | inputEnded
  | errorCaught
  | fuelOut
deriving DecidableEq, Repr

/-- Embedding of `user_input.lower() in ["exit", "quit", "bye"]`
(chat.py line 161). -/
def isExitTok (ui : Chars) : Bool :=
  if lowerChars ui = "exit".data then true
  else if lowerChars ui = "quit".data then true
  else if lowerChars ui = "bye".data then true
  else false

/-- Embedding of the `while True` loop of `async_chat` (chat.py lines
157-190), bounded by explicit fuel standing for the number of loop
iterations (`EndKind.fuelOut` marks truncation of the unbounded loop).
Each turn: capture input; on an exit keyword terminate with exit code 0;
on `/history` (lowercased comparison) pretty-print the current history
and continue; on empty input continue without submitting; otherwise
append a human message to the history and invoke the engine, rendering
its stream with `stream_output`. An engine error is caught by the
`except Exception` handler which sits OUTSIDE the `while` loop
(line 185): the notice is printed and `async_chat` returns, ending the
session, with the already-appended human message still in the history.
Exhausted terminal input likewise ends the session. -/
def chatLoop : Nat → List Chars → (History → EngineResult) → History →
    History × List SessionEvent × EndKind
  | 0, _, _, st => (st, [], EndKind.fuelOut)
  | fuel + 1, inputs, engine, st =>
      match get_input inputs with
      | none => (st, [], EndKind.inputEnded)
      | some (ui, rest) =>
          if isExitTok ui then (st, [], EndKind.exitZero)
          else if lowerChars ui = "/history".data then
            let r := chatLoop fuel rest engine st
            (r.1, SessionEvent.printedHistory st :: r.2.1, r.2.2)
          else if ui = [] then chatLoop fuel rest engine st
          else
            let st1 := st ++ [Message.mk Role.human ui]
            match engine st1 with
            | EngineResult.ok frags =>
                let so := stream_output frags st1
                let r := chatLoop fuel rest engine so.1
                (r.1, SessionEvent.rendered so.2 :: r.2.1, r.2.2)
            | EngineResult.err msg =>
                (st1, [SessionEvent.errorNotice msg], EndKind.errorCaught)

theorem consHead_ne_nil (x : Chars) (L : List Chars) : consHead x L ≠ [] := by
  cases L <;> simp [consHead]

theorem consHead_nil {L : List Chars} (h : L ≠ []) : consHead [] L = L := by
  cases L with
  | nil => exact absurd rfl h
  | cons y ys => simp [consHead]

theorem consHead_assoc (a b : Chars) (L : List Chars) :
    consHead a (consHead b L) = consHead (a ++ b) L := by
  cases L <;> simp [consHead]

theorem SL_ne_nil (s : Chars) : splitLinesChars s ≠ [] := by
  cases s with
  | nil => simp [splitLinesChars]
  | cons c cs =>
      simp only [splitLinesChars]
      split
      · simp
      · exact consHead_ne_nil _ _

theorem SL_cons_nl (cs : Chars) :
    splitLinesChars ('\n' :: cs) = [] :: splitLinesChars cs := by
  simp [splitLinesChars]

theorem SL_cons {c : Char} (hc : c ≠ '\n') (cs : Chars) :
    splitLinesChars (c :: cs) = consHead [c] (splitLinesChars cs) := by
  simp [splitLinesChars, hc]

theorem feed_cons_nl (m : Mode) (cur cs : Chars) :
    feed m cur ('\n' :: cs) =
      (Out.styled (classify cur m) cur :: (feed (classify cur m) [] cs).1,
       (feed (classify cur m) [] cs).2) := by
  simp [feed]

theorem feed_cons (m : Mode) (cur : Chars) {c : Char} (hc : c ≠ '\n') (cs : Chars) :
    feed m cur (c :: cs) = feed m (cur ++ [c]) cs := by
  simp [feed, hc]

theorem SL_append_no_nl : ∀ (a b : Chars), '\n' ∉ a →
    splitLinesChars (a ++ b) = consHead a (splitLinesChars b) := by
  intro a
  induction a with
  | nil =>
      intro b h
      simpa using (consHead_nil (SL_ne_nil b)).symm
  | cons c a' ih =>
      intro b h
      have hc : c ≠ '\n' := by
        intro hh
        exact h (by simp [hh])
      have ha : '\n' ∉ a' := fun hh => h (List.mem_cons_of_mem _ hh)
      rw [List.cons_append, SL_cons hc, ih b ha, consHead_assoc]
      rfl

theorem SL_no_nl {t : Chars} (h : '\n' ∉ t) : splitLinesChars t = [t] := by
  have h2 := SL_append_no_nl t [] h
  simpa [splitLinesChars, consHead] using h2

theorem drain_eq_feed : ∀ (t : Chars) (m : Mode) (cur : Chars), '\n' ∉ cur →
    drainParts m (consHead cur (splitLinesChars t)) = feed m cur t := by
  intro t
  induction t with
  | nil =>
      intro m cur h
      simp [splitLinesChars, consHead, drainParts, feed]
  | cons c cs ih =>
      intro m cur h
      by_cases hc : c = '\n'
      · subst hc
        have h2 : drainParts (classify cur m) (splitLinesChars cs)
            = feed (classify cur m) [] cs := by
          have h3 := ih (classify cur m) [] (by simp)
          rwa [consHead_nil (SL_ne_nil cs)] at h3
        obtain ⟨l, ls, hsl⟩ : ∃ l ls, splitLinesChars cs = l :: ls := by
          rcases hh : splitLinesChars cs with _ | ⟨l, ls⟩
          · exact absurd hh (SL_ne_nil cs)
          · exact ⟨l, ls, rfl⟩
        rw [hsl] at h2
        rw [SL_cons_nl, feed_cons_nl]
        simp only [hsl, consHead, List.append_nil]
        simp [drainParts, h2]
      · have hnl : '\n' ∉ cur ++ [c] := by
          intro hh
          rcases List.mem_append.mp hh with h1 | h1
          · exact h h1
          · exact hc (List.mem_singleton.mp h1).symm
        rw [SL_cons hc, consHead_assoc, feed_cons m cur hc]
        exact ih m (cur ++ [c]) hnl

theorem feed_append : ∀ (a b : Chars) (m : Mode) (cur : Chars),
    feed m cur (a ++ b) =
      ((feed m cur a).1 ++ (feed (feed m cur a).2.1 (feed m cur a).2.2 b).1,
       (feed (feed m cur a).2.1 (feed m cur a).2.2 b).2) := by
  intro a
  induction a with
  | nil => intro b m cur; simp [feed]
  | cons c cs ih =>
      intro b m cur
      by_cases hc : c = '\n'
      · subst hc
        rw [List.cons_append, feed_cons_nl, feed_cons_nl]
        rw [ih]
        simp
      · rw [List.cons_append, feed_cons m cur hc, feed_cons m cur hc]
        exact ih b m (cur ++ [c])

theorem feed_no_nl : ∀ (t : Chars) (m : Mode) (cur : Chars), '\n' ∉ t →
    feed m cur t = ([], m, cur ++ t) := by
  intro t
  induction t with
  | nil => intro m cur _; simp [feed]
  | cons c cs ih =>
      intro m cur h
      have hc : c ≠ '\n' := by
        intro hh
        exact h (by simp [hh])
      rw [feed_cons m cur hc]
      rw [ih m (cur ++ [c]) (fun hh => h (List.mem_cons_of_mem _ hh))]
      simp

theorem feed_residue_no_nl : ∀ (t : Chars) (m : Mode) (cur : Chars), '\n' ∉ cur →
    '\n' ∉ (feed m cur t).2.2 := by
  intro t
  induction t with
  | nil => intro m cur h; simpa [feed] using h
  | cons c cs ih =>
      intro m cur h
      by_cases hc : c = '\n'
      · subst hc
        rw [feed_cons_nl]
        exact ih _ [] (by simp)
      · rw [feed_cons m cur hc]
        apply ih
        intro hh
        rcases List.mem_append.mp hh with h1 | h1
        · exact h h1
        · exact hc (List.mem_singleton.mp h1).symm

theorem feed_nl_mid (pre post : Chars) (m : Mode) (cur : Chars)
    (hpre : '\n' ∉ pre) (hpost : '\n' ∉ post) :
    feed m cur (pre ++ '\n' :: post) =
      ([Out.styled (classify (cur ++ pre) m) (cur ++ pre)],
        classify (cur ++ pre) m, post) := by
  rw [feed_append, feed_no_nl pre m cur hpre]
  simp only [feed_cons_nl]
  rw [feed_no_nl post _ [] hpost]
  simp

theorem drainParts_mode : ∀ (parts : List Chars) (m : Mode), parts ≠ [] →
    (drainParts m parts).2.1 =
      List.foldl (fun mm l => classify l mm) m parts.dropLast := by
  intro parts
  induction parts with
  | nil => intro m h; exact absurd rfl h
  | cons x tail ih =>
      intro m h
      cases tail with
      | nil => simp [drainParts]
      | cons y ys =>
          simp only [drainParts]
          rw [ih (classify x m) (by simp)]
          simp

theorem stepChunk_ai (rs : RenderState) (texts : List Chars)
    (h : '\n' ∉ rs.buffer) :
    stepChunk rs (Chunk.ai texts) =
      (RenderState.mk (feed rs.mode rs.buffer texts.flatten).2.2
        (feed rs.mode rs.buffer texts.flatten).2.1 rs.state,
       (feed rs.mode rs.buffer texts.flatten).1) := by
  have hb : drainBuffer (rs.buffer ++ texts.flatten) rs.mode
      = feed rs.mode rs.buffer texts.flatten := by
    unfold drainBuffer
    rw [SL_append_no_nl _ _ h]
    exact drain_eq_feed _ _ _ h
  simp [stepChunk, hb]

theorem runChunks_eq : ∀ (cs : List Chunk) (rs : RenderState), '\n' ∉ rs.buffer →
    (runChunks rs cs).1 =
      RenderState.mk (feed rs.mode rs.buffer (chunksText cs)).2.2
        (feed rs.mode rs.buffer (chunksText cs)).2.1 rs.state := by
  intro cs
  induction cs with
  | nil => intro rs _; simp [runChunks, chunksText, feed]
  | cons c cs' ih =>
      intro rs h
      have hct : chunksText (c :: cs') = chunkText c ++ chunksText cs' := by
        simp [chunksText]
      cases c with
      | ai texts =>
          simp only [runChunks, stepChunk_ai rs texts h]
          rw [ih (RenderState.mk (feed rs.mode rs.buffer texts.flatten).2.2
                (feed rs.mode rs.buffer texts.flatten).2.1 rs.state)
              (feed_residue_no_nl _ _ _ h)]
          rw [hct]
          simp only [chunkText]
          rw [feed_append]
      | toolMsg mm =>
          simp only [runChunks, stepChunk]
          rw [ih rs h, hct]
          simp [chunkText]
      | metaDict =>
          simp only [runChunks, stepChunk]
          rw [ih rs h, hct]
          simp [chunkText]
      | other descr =>
          simp only [runChunks, stepChunk]
          rw [ih rs h, hct]
          simp [chunkText]

theorem runFragments_eq : ∀ (fs : List Fragment) (rs : RenderState), '\n' ∉ rs.buffer →
    (runFragments rs fs).1 =
      RenderState.mk (feed rs.mode rs.buffer (streamText fs)).2.2
        (feed rs.mode rs.buffer (streamText fs)).2.1
        ((lastSnapshotOf fs).getD rs.state) := by
  intro fs
  induction fs with
  | nil => intro rs _; simp [runFragments, streamText, lastSnapshotOf, feed]
  | cons f fs' ih =>
      intro rs h
      have hst : streamText (f :: fs') = fragText f ++ streamText fs' := by
        simp [streamText]
      cases f with
      | values hh =>
          simp only [runFragments, stepFragment]
          rw [ih (RenderState.mk rs.buffer rs.mode hh) h]
          rw [hst]
          simp only [fragText, lastSnapshotOf, List.nil_append]
          cases lastSnapshotOf fs' <;> simp
      | messages cs =>
          simp only [runFragments, stepFragment]
          rw [runChunks_eq cs rs h]
          rw [ih (RenderState.mk (feed rs.mode rs.buffer (chunksText cs)).2.2
                (feed rs.mode rs.buffer (chunksText cs)).2.1 rs.state)
              (feed_residue_no_nl _ _ _ h)]
          rw [hst]
          simp only [fragText, lastSnapshotOf]
          rw [feed_append]

theorem runFragments_deltas_out : ∀ (ds : List Chars) (rs : RenderState), '\n' ∉ rs.buffer →
    (runFragments rs (ds.map Fragment.textDelta)).2 =
      (feed rs.mode rs.buffer ds.flatten).1 := by
  intro ds
  induction ds with
  | nil => intro rs _; simp [runFragments, feed]
  | cons t ds' ih =>
      intro rs h
      simp only [List.map_cons, runFragments, Fragment.textDelta, stepFragment, runChunks,
        stepChunk_ai rs [t] h]
      rw [ih (RenderState.mk (feed rs.mode rs.buffer [t].flatten).2.2
            (feed rs.mode rs.buffer [t].flatten).2.1 rs.state)
          (feed_residue_no_nl _ _ _ h)]
      simp only [List.flatten_cons, List.flatten_nil, List.append_nil, List.flatten]
      rw [feed_append]

theorem lastSnapshotOf_textDeltas : ∀ ds : List Chars,
    lastSnapshotOf (ds.map Fragment.textDelta) = none := by
  intro ds
  induction ds with
  | nil => rfl
  | cons t ds' ih => simp [Fragment.textDelta, lastSnapshotOf, ih]

theorem streamText_textDeltas : ∀ ds : List Chars,
    streamText (ds.map Fragment.textDelta) = ds.flatten := by
  intro ds
  induction ds with
  | nil => rfl
  | cons t ds' ih =>
      have h1 : streamText (Fragment.textDelta t :: ds'.map Fragment.textDelta)
          = fragText (Fragment.textDelta t) ++ streamText (ds'.map Fragment.textDelta) := by
        simp [streamText]
      simp only [List.map_cons, h1, ih]
      simp [Fragment.textDelta, fragText, chunksText, chunkText]

theorem startsWithChars_iff (p : Chars) : ∀ l : Chars,
    startsWithChars l p = true ↔ ∃ r, l = p ++ r := by
  induction p with
  | nil =>
      intro l
      cases l <;> simp [startsWithChars]
  | cons q ps ih =>
      intro l
      cases l with
      | nil => simp [startsWithChars]
      | cons c cs =>
          constructor
          · intro h
            simp only [startsWithChars] at h
            by_cases hc : c = q
            · subst hc
              rw [if_pos rfl] at h
              obtain ⟨r, hr⟩ := (ih cs).mp h
              exact ⟨r, by simp [hr]⟩
            · rw [if_neg hc] at h
              exact absurd h (by simp)
          · rintro ⟨r, hr⟩
            simp only [List.cons_append, List.cons.injEq] at hr
            obtain ⟨h1, h2⟩ := hr
            subst h1
            simp only [startsWithChars, if_pos rfl]
            exact (ih cs).mpr ⟨r, h2⟩

theorem startsWith_think_fence {line : Chars}
    (h : startsWithChars line thinkTok = true) :
    startsWithChars line fenceTok = true := by
  obtain ⟨r, hr⟩ := (startsWithChars_iff _ _).mp h
  refine (startsWithChars_iff _ _).mpr ⟨("thinking".data) ++ r, ?_⟩
  rw [hr]
  have : thinkTok = fenceTok ++ ("thinking".data) := by decide
  simp [this]

/-- C1 (original statement, refuted): for a line starting with a bare
fence marker but not the thinking opener, classify applied in Thinking
mode yields `Mode.bot`, not `Mode.code` as the claim states: the line
`"```"` is such a line, and `classify "``` " Mode.thinking = Mode.bot`. -/
theorem c1_counterexample :
    classify ("```".data) Mode.thinking = Mode.bot ∧ Mode.bot ≠ Mode.code := by
  decide

/-- C1 (amended): a plain fence marker is the only way to exit Thinking
mode, and it sends the render mode to Bot (not Code): any line starting
with the bare fence marker but not the thinking opener moves Thinking to
Bot, and any line not starting with the bare fence marker leaves
Thinking unchanged. -/
theorem c1_amended (line : Chars) :
    (startsWithChars line fenceTok = true →
      startsWithChars line thinkTok = false →
      classify line Mode.thinking = Mode.bot) ∧
    (startsWithChars line fenceTok = false →
      classify line Mode.thinking = Mode.thinking) := by
  constructor
  · intro hf ht
    simp [classify, hf, ht]
  · intro hf
    have ht : startsWithChars line thinkTok = false := by
      cases h : startsWithChars line thinkTok
      · rfl
      · exact absurd (startsWith_think_fence h) (by simp [hf])
    simp [classify, hf, ht]

/-- C1 witness: the amended theorem evaluated at the line `"```"`. -/
theorem c1_witness : classify ("```".data) Mode.thinking = Mode.bot :=
  (c1_amended ("```".data)).1 (by decide) (by decide)

/-- C4: the fence classification follows the three ordered rules of the
spec: a line starting with the thinking opener yields Thinking; else a
line starting with a bare fence marker toggles (Bot becomes Code, any
other mode becomes Bot); any other line leaves the mode unchanged. -/
theorem c4_ordered_rules (line : Chars) (m : Mode) :
    ((∃ r, line = thinkTok ++ r) → classify line m = Mode.thinking) ∧
    ((∃ r, line = fenceTok ++ r) → (¬ ∃ r, line = thinkTok ++ r) →
      classify line m = if m = Mode.bot then Mode.code else Mode.bot) ∧
    ((¬ ∃ r, line = fenceTok ++ r) → (¬ ∃ r, line = thinkTok ++ r) →
      classify line m = m) := by
  refine ⟨?_, ?_, ?_⟩
  · intro h
    have ht : startsWithChars line thinkTok = true :=
      (startsWithChars_iff _ _).mpr h
    simp [classify, ht]
  · intro hf hnt
    have hf' : startsWithChars line fenceTok = true :=
      (startsWithChars_iff _ _).mpr hf
    have ht' : startsWithChars line thinkTok = false := by
      cases h : startsWithChars line thinkTok
      · rfl
      · exact absurd ((startsWithChars_iff _ _).mp h) hnt
    simp [classify, hf', ht']
  · intro hnf hnt
    have hf' : startsWithChars line fenceTok = false := by
      cases h : startsWithChars line fenceTok
      · rfl
      · exact absurd ((startsWithChars_iff _ _).mp h) hnf
    have ht' : startsWithChars line thinkTok = false := by
      cases h : startsWithChars line thinkTok
      · rfl
      · exact absurd ((startsWithChars_iff _ _).mp h) hnt
    simp [classify, hf', ht']

/-- C4 witness: the first rule evaluated at the thinking opener itself. -/
theorem c4_witness : classify ("```thinking".data) Mode.code = Mode.thinking :=
  (c4_ordered_rules ("```thinking".data) Mode.code).1 ⟨[], by simp [thinkTok]⟩

/-- C8: a ToolEvent fragment leaves the renderer's mode, buffer and state
unchanged; a StateSnapshot (`'values'`) fragment leaves mode and buffer
unchanged, replaces the working history reference, and produces no
output at all. -/
theorem c8_frame (rs : RenderState) (m : Message) (h : History) :
    (stepFragment rs (Fragment.toolEvent m)).1.mode = rs.mode ∧
    (stepFragment rs (Fragment.toolEvent m)).1.buffer = rs.buffer ∧
    (stepFragment rs (Fragment.toolEvent m)).1.state = rs.state ∧
    (stepFragment rs (Fragment.values h)).1.mode = rs.mode ∧
    (stepFragment rs (Fragment.values h)).1.buffer = rs.buffer ∧
    (stepFragment rs (Fragment.values h)).1.state = h ∧
    (stepFragment rs (Fragment.values h)).2 = [] := by
  simp [stepFragment, Fragment.toolEvent, runChunks, stepChunk]

/-- C9: the stream renderer consumes the fragment stream to completion
and returns, as the new history, the last StateSnapshot it saw: whenever
the stream holds at least one snapshot, the history component of
`stream_output` is the payload of the last one, independent of the
initial history. -/
theorem c9_last_snapshot (fs : List Fragment) (h0 h : History)
    (hl : lastSnapshotOf fs = some h) :
    (stream_output fs h0).1 = h := by
  simp only [stream_output]
  rw [runFragments_eq fs (initRender h0) (by simp [initRender])]
  simp [initRender, hl]

/-- C9 witness: two snapshots; the later one is the returned history. -/
theorem c9_witness :
    (stream_output [Fragment.values [Message.mk Role.ai ("a".data)], Fragment.values []]
      [Message.mk Role.human ("b".data)]).1 = [] :=
  c9_last_snapshot _ _ _ (by decide)

/-- C7: the render mode after consuming any fragment stream is obtained
by folding `classify` over exactly the completed (newline-terminated)
lines of the concatenated streamed text: mode transitions are driven
solely by completed lines, and neither buffered partial text nor the
end-of-stream flush moves the mode. -/
theorem c7_mode_invariant (fs : List Fragment) (h : History) :
    ((runFragments (initRender h) fs).1).mode =
      List.foldl (fun mm l => classify l mm) Mode.bot
        ((splitLinesChars (streamText fs)).dropLast) := by
  rw [runFragments_eq fs (initRender h) (by simp [initRender])]
  simp only [initRender]
  rw [← drain_eq_feed (streamText fs) Mode.bot [] (by simp)]
  rw [consHead_nil (SL_ne_nil _)]
  exact drainParts_mode _ _ (SL_ne_nil _)

/-- C3 (original statement, refuted): the end-of-stream flush is styled
`bot` unconditionally (chat.py line 229), not in the current render
mode: after streaming `"```thinking\nx"` the current mode is Thinking,
yet the non-empty buffer `"x"` is flushed styled as Bot. -/
theorem c3_counterexample :
    (runFragments (initRender []) [Fragment.textDelta ("```thinking\nx".data)]).1.mode
        = Mode.thinking ∧
    (stream_output [Fragment.textDelta ("```thinking\nx".data)] []).2 =
      [Out.styled Mode.thinking ("```thinking".data), Out.styled Mode.bot ("x".data)] ∧
    Mode.bot ≠ Mode.thinking := by
  decide

/-- C3 (amended): at stream end the remaining buffer is always flushed as
one final styled line, but styled as Bot regardless of the current render
mode; in particular a renderer fed a single TextDelta with no newline
still emits exactly one final line (the flush), and a delta stream with
one newline emits its completed line in the transition mode followed by
the Bot-styled flush of the remainder. -/
theorem c3_amended (ds : List Chars) (pre post : Chars) (h : History) (t : Chars) :
    ('\n' ∉ t →
      stream_output [Fragment.textDelta t] h = (h, [Out.styled Mode.bot t])) ∧
    (ds.flatten = pre ++ '\n' :: post → '\n' ∉ pre → '\n' ∉ post →
      stream_output (ds.map Fragment.textDelta) h =
        (h, [Out.styled (classify pre Mode.bot) pre, Out.styled Mode.bot post])) := by
  constructor
  · intro ht
    have e1 : [Fragment.textDelta t] = [t].map Fragment.textDelta := by simp
    simp only [stream_output, e1]
    rw [runFragments_eq ([t].map Fragment.textDelta) (initRender h) (by simp [initRender])]
    rw [runFragments_deltas_out [t] (initRender h) (by simp [initRender])]
    rw [streamText_textDeltas, lastSnapshotOf_textDeltas]
    simp only [initRender, List.flatten_cons, List.flatten_nil, List.append_nil]
    rw [feed_no_nl t Mode.bot [] ht]
    simp
  · intro hcat hpre hpost
    simp only [stream_output]
    rw [runFragments_eq (ds.map Fragment.textDelta) (initRender h) (by simp [initRender])]
    rw [runFragments_deltas_out ds (initRender h) (by simp [initRender])]
    rw [streamText_textDeltas, lastSnapshotOf_textDeltas]
    simp only [initRender]
    rw [hcat, feed_nl_mid pre post Mode.bot [] hpre hpost]
    simp

/-- C3 witness: the amended theorem evaluated on the single delta
`"```thinking\nxy"`: the completed line renders in Thinking mode and the
trailing `"xy"` is flushed styled Bot. -/
theorem c3_witness :
    stream_output (["```thinking\nxy".data].map Fragment.textDelta) [] =
      ([], [Out.styled Mode.thinking ("```thinking".data),
            Out.styled Mode.bot ("xy".data)]) :=
  ((c3_amended ["```thinking\nxy".data] ("```thinking".data) ("xy".data) [] []).2
    (by decide) (by decide) (by decide)).trans (by decide)

/-- C6: for any sequence of TextDeltas whose concatenation contains
exactly one newline, the renderer emits exactly one styled line — the
text before the newline, styled in the mode that classifying it
transitions into — and retains the text after the newline in the
buffer. -/
theorem c6_single_newline (ds : List Chars) (pre post : Chars) (h : History)
    (hcat : ds.flatten = pre ++ '\n' :: post) (hpre : '\n' ∉ pre) (hpost : '\n' ∉ post) :
    runFragments (initRender h) (ds.map Fragment.textDelta) =
      (RenderState.mk post (classify pre Mode.bot) h,
       [Out.styled (classify pre Mode.bot) pre]) := by
  have h1 := runFragments_eq (ds.map Fragment.textDelta) (initRender h) (by simp [initRender])
  have h2 := runFragments_deltas_out ds (initRender h) (by simp [initRender])
  rw [streamText_textDeltas, lastSnapshotOf_textDeltas] at h1
  simp only [initRender] at h1 h2
  rw [hcat, feed_nl_mid pre post Mode.bot [] hpre hpost] at h1 h2
  simp only [List.nil_append, Option.getD_none] at h1 h2
  exact Prod.ext h1 h2

/-- C6 witness: the newline arrives split across two deltas; exactly one
styled line `"hello"` is emitted and `"wo"` stays buffered. -/
theorem c6_witness :
    runFragments (initRender []) (["hel".data, "lo\nwo".data].map Fragment.textDelta) =
      (RenderState.mk ("wo".data) Mode.bot [], [Out.styled Mode.bot ("hello".data)]) :=
  (c6_single_newline ["hel".data, "lo\nwo".data] ("hello".data) ("wo".data) []
    (by decide) (by decide) (by decide)).trans (by decide)

theorem collectMulti_run : ∀ (body acc : List Chars) (stopLine : Chars)
    (rest : List Chars),
    (∀ l ∈ body, trimChars l ≠ backTok) → trimChars stopLine = backTok →
    collectMulti (body ++ stopLine :: rest) acc =
      some (acc ++ body.map trimChars, rest) := by
  intro body
  induction body with
  | nil =>
      intro acc stopLine rest _ hstop
      simp [collectMulti, hstop]
  | cons l body' ih =>
      intro acc stopLine rest hbody hstop
      have hl : trimChars l ≠ backTok := hbody l (by simp)
      simp only [List.cons_append, collectMulti, if_neg hl, List.append_eq]
      rw [ih (acc ++ [trimChars l]) stopLine rest
          (fun x hx => hbody x (List.mem_cons_of_mem _ hx)) hstop]
      simp

/-- C5 (original statement, refuted): subsequent lines of a multi-line
capture are NOT appended verbatim: `get_input` strips each of them
(chat.py line 150), so the input lines `"`a"`, `"  b  "`, `"`"` yield
`"a\nb"`, not the `"a\n  b  "` the claim requires. -/
theorem c5_counterexample :
    get_input ["`a".data, "  b  ".data, "`".data] = some ("a\nb".data, []) ∧
    ("a\nb".data : Chars) ≠ "a\n  b  ".data := by
  decide

/-- C5 (amended): when the first trimmed input line starts with the
sentinel, the sentinel-stripped remainder is the first collected line,
each subsequent line is appended after stripping surrounding whitespace
until a line whose stripped form is exactly the sentinel is read (that
terminator is not appended), and the collected lines are joined with
newline separators; in particular the lines `"`hello"`, `"world"`,
`"`"` yield exactly `"hello\nworld"`. -/
theorem c5_amended (raw : Chars) (body : List Chars) (stopLine : Chars)
    (rest : List Chars)
    (hfirst : startsWithChars (trimChars raw) backTok = true)
    (hbody : ∀ l ∈ body, trimChars l ≠ backTok)
    (hstop : trimChars stopLine = backTok) :
    get_input (raw :: (body ++ stopLine :: rest)) =
      some (joinNL ((trimChars raw).drop 1 :: body.map trimChars), rest) := by
  have hc := collectMulti_run body [(trimChars raw).drop 1] stopLine rest hbody hstop
  simp only [get_input, hfirst, if_pos, hc]
  simp

/-- C5 witness: the concrete example of the claim. -/
theorem c5_witness :
    get_input ["`hello".data, "world".data, "`".data] =
      some ("hello\nworld".data, []) :=
  (c5_amended ("`hello".data) ["world".data] ("`".data) [] (by decide)
    (by decide) (by decide)).trans (by decide)

/-- C2: the code catches an engine error and prints the non-fatal
notice, but the `except Exception` handler sits outside the `while True`
loop, so the session terminates instead of returning to await input: on
inputs `"hi"` then `"second"` with an engine that raises, the loop ends
with `EndKind.errorCaught` after the single notice, the queued input
`"second"` is never read, and the history retains the appended human
message. -/
theorem c2_loop_exits :
    chatLoop 2 [("hi".data), ("second".data)]
        (fun _ => EngineResult.err ("boom".data)) [] =
      ([Message.mk Role.human ("hi".data)],
       [SessionEvent.errorNotice ("boom".data)], EndKind.errorCaught) := by
  decide

theorem lower_history_not_back {t : Chars}
    (h : lowerChars t = "/history".data) :
    startsWithChars t backTok = false := by
  cases t with
  | nil => exact absurd h (by decide)
  | cons c cs =>
      have hhead : Char.toLower c = ("/history".data).headD ' ' := by
        have h2 := congrArg (fun l => l.headD ' ') h
        simpa [lowerChars] using h2
      by_cases hc : c = '\x60'
      · exfalso
        rw [hc] at hhead
        exact absurd hhead (by decide)
      · have hb : backTok = ['\x60'] := by decide
        rw [hb]
        simp [startsWithChars, hc]

theorem history_not_exit {t : Chars} (h : lowerChars t = "/history".data) :
    isExitTok t = false := by
  unfold isExitTok
  rw [h]
  decide

/-- C10: the session matches `/history` case-insensitively: for every
raw input line whose stripped, lowercased form is `"/history"`, the turn
pretty-prints the current history and continues the loop with an
unchanged history, appending no message and invoking the engine only
for later turns. -/
theorem c10_history_cmd (fuel : Nat) (raw : Chars) (rest : List Chars)
    (engine : History → EngineResult) (st : History)
    (h : lowerChars (trimChars raw) = "/history".data) :
    chatLoop (fuel + 1) (raw :: rest) engine st =
      ((chatLoop fuel rest engine st).1,
       SessionEvent.printedHistory st :: (chatLoop fuel rest engine st).2.1,
       (chatLoop fuel rest engine st).2.2) := by
  have hsw : startsWithChars (trimChars raw) backTok = false :=
    lower_history_not_back h
  have hin : get_input (raw :: rest) = some (trimChars raw, rest) := by
    simp [get_input, hsw]
  have hex : isExitTok (trimChars raw) = false := history_not_exit h
  simp only [chatLoop, hin]
  simp [hex, h]

/-- C10 witness: the raw line `" /HISTORY "` prints the history with no
message appended and no engine call. -/
theorem c10_witness :
    chatLoop 1 [(" /HISTORY ".data)] (fun _ => EngineResult.err []) [] =
      ([], [SessionEvent.printedHistory []], EndKind.fuelOut) :=
  (c10_history_cmd 0 (" /HISTORY ".data) [] (fun _ => EngineResult.err []) []
    (by decide)).trans (by decide)

end ChatSpec
